import Mathlib

/-!
Verification of the rate-reconstruction engine of fedex_rate_tool.py.

The development shallowly embeds the pure core of the tool: the table
normalizer, the zone index builders (postal-code map and zone matrix),
the zone resolver, the service locator, and the two rate-table builders
(flat and freight).  Monetary values are modelled exactly as the source
models them, as decimal.Decimal fixed-point numbers (an integer
coefficient together with a count of fractional digits), so that
multiplication, ROUND_HALF_UP quantization to two digits and max are
exact.  Strings are processed on their character lists so that every
definition evaluates by kernel reduction.
-/

namespace FRT

/-- Python str whitespace characters (space, tab, newline, carriage
return, vertical tab, form feed) restricted to ASCII. -/
def isPyWs (c : Char) : Bool :=
  c.toNat = 32 || c.toNat = 9 || c.toNat = 10 || c.toNat = 13 || c.toNat = 11 || c.toNat = 12

/-- Split a character list on newline characters, keeping empty pieces,
like Python str.split with a newline separator. -/
def splitNl : List Char → List (List Char)
  | [] => [[]]
  | c :: cs =>
    if c.toNat = 10 then [] :: splitNl cs
    else
      match splitNl cs with
      | [] => [[c]]
      | t :: ts => (c :: t) :: ts

/-- Lines of a string: Python text.split of a newline. -/
def splitOnNl (s : String) : List String := (splitNl s.data).map String.mk

/-- Whitespace tokenizer accumulating the current token reversed;
models Python str.split with no argument (runs of whitespace separate
tokens, no empty tokens). -/
def wsSplitAux : List Char → List Char → List (List Char)
  | cur, [] => if cur.isEmpty then [] else [cur.reverse]
  | cur, c :: cs =>
    if isPyWs c then
      (if cur.isEmpty then wsSplitAux [] cs else cur.reverse :: wsSplitAux [] cs)
    else wsSplitAux (c :: cur) cs

/-- Python str.split with no argument. -/
def pySplitWs (s : String) : List String := (wsSplitAux [] s.data).map String.mk

/-- Strip leading and trailing whitespace from a character list. -/
def pyStripChars (cs : List Char) : List Char :=
  ((cs.dropWhile isPyWs).reverse.dropWhile isPyWs).reverse

/-- Python str.strip with no argument. -/
def pyStrip (s : String) : String := String.mk (pyStripChars s.data)

/-- Exact character-list match of a needle at the head of a haystack. -/
def tokAtHead : List Char → List Char → Bool
  | [], _ => true
  | _ :: _, [] => false
  | a :: as, b :: bs => a.toNat = b.toNat && tokAtHead as bs

/-- Substring occurrence of a needle in a haystack, both as character
lists; models the Python in operator on str. -/
def subIn (needle : List Char) : List Char → Bool
  | [] => needle.isEmpty
  | b :: t => tokAtHead needle (b :: t) || subIn needle t

/-- Python needle in hay, case sensitive. -/
def strContains (hay needle : String) : Bool := subIn needle.data hay.data

/-- ASCII code of a character after Python str.lower. -/
def lowNat (c : Char) : Nat := if 65 ≤ c.toNat ∧ c.toNat ≤ 90 then c.toNat + 32 else c.toNat

/-- Case-insensitive head match via lowered ASCII codes. -/
def tokAtHeadLow : List Char → List Char → Bool
  | [], _ => true
  | _ :: _, [] => false
  | a :: as, b :: bs => lowNat a = lowNat b && tokAtHeadLow as bs

/-- Case-insensitive substring occurrence. -/
def subInLow (needle : List Char) : List Char → Bool
  | [] => needle.isEmpty
  | b :: t => tokAtHeadLow needle (b :: t) || subInLow needle t

/-- Python needle.lower() in hay.lower(). -/
def containsLow (hay needle : String) : Bool := subInLow needle.data hay.data

/-- Python needle.lower().replace(space, empty) in
hay.lower().replace(space, empty). -/
def containsLowNS (hay needle : String) : Bool :=
  subInLow (needle.data.filter (fun c => c.toNat ≠ 32)) (hay.data.filter (fun c => c.toNat ≠ 32))

/-- ASCII decimal digit test. -/
def isDigitB (c : Char) : Bool := 48 ≤ c.toNat && c.toNat ≤ 57

/-- Value of a list of decimal digit characters. -/
def digitsToNat (cs : List Char) : Nat := cs.foldl (fun n c => n * 10 + (c.toNat - 48)) 0

/-- Python int applied to a token: optional sign, then decimal digits,
with surrounding whitespace ignored. -/
def parseInt? (s : String) : Option Int :=
  match pyStripChars s.data with
  | [] => none
  | c :: rest =>
    let p : Bool × List Char :=
      if c.toNat = 45 then (true, rest)
      else if c.toNat = 43 then (false, rest)
      else (false, c :: rest)
    if p.2 ≠ [] ∧ p.2.all isDigitB then
      some (if p.1 then -(digitsToNat p.2 : Int) else (digitsToNat p.2 : Int))
    else none

/-- A decimal.Decimal value as the source manipulates them: an integer
coefficient num together with the number dig of fractional digits; the
denoted value is num divided by 10 to the dig. The representation is
not normalized, exactly as in Python. -/
structure Dec where
  num : Int
  dig : Nat
deriving DecidableEq, Repr

/-- Coefficient of a Dec rescaled by k more fractional digits. -/
def decScale (n : Int) (k : Nat) : Int := n * ((10 ^ k : Nat) : Int)

/-- Numeric strict order on Dec (cross-multiplied coefficients). -/
def decLtB (a b : Dec) : Bool := decScale a.num b.dig < decScale b.num a.dig

/-- Python max on two Decimal values: the second wins only when it is
strictly larger. -/
def decMax (a b : Dec) : Dec := if decLtB a b then b else a

/-- Decimal multiplication by an integer: exact, exponent preserved. -/
def decMulInt (w : Int) (d : Dec) : Dec := ⟨w * d.num, d.dig⟩

/-- Quantization to two fractional digits with ROUND_HALF_UP (ties away
from zero), as Decimal.quantize with exponent -2 does. -/
def quant2 (d : Dec) : Dec :=
  if d.dig ≤ 2 then ⟨decScale d.num (2 - d.dig), 2⟩
  else
    let s : Nat := 10 ^ (d.dig - 2)
    let q : Nat := (d.num.natAbs + s / 2) / s
    ⟨if 0 ≤ d.num then (q : Int) else -(q : Int), 2⟩

/-- Parse of a plain decimal literal by the Decimal constructor:
optional sign, an integer part and an optional fractional part, at
least one digit in total. -/
def parseDec? (s : String) : Option Dec :=
  match pyStripChars s.data with
  | [] => none
  | c0 :: rest0 =>
    let p : Bool × List Char :=
      if c0.toNat = 45 then (true, rest0)
      else if c0.toNat = 43 then (false, rest0)
      else (false, c0 :: rest0)
    let ip := p.2.takeWhile isDigitB
    let mkd : List Char → Option Dec := fun fr =>
      if ip.isEmpty ∧ fr.isEmpty then none
      else
        let m : Nat := digitsToNat (ip ++ fr)
        some ⟨if p.1 then -(m : Int) else (m : Int), fr.length⟩
    match p.2.dropWhile isDigitB with
    | [] => mkd []
    | c :: fr => if c.toNat = 46 ∧ fr.all isDigitB then mkd fr else none

/-- clean_rate of the source: delete dollar signs, commas and spaces,
strip, and treat an empty or dash result as absent, otherwise parse as
a Decimal. -/
def clean_rate (s : String) : Option Dec :=
  let cleaned := pyStrip (String.mk (s.data.filter (fun c =>
    c.toNat ≠ 36 ∧ c.toNat ≠ 44 ∧ c.toNat ≠ 32)))
  if cleaned = "" ∨ cleaned = "—" ∨ cleaned = "-" then none
  else parseDec? cleaned

/-- parse_rates_line of the source: an empty cell yields no rates;
otherwise delete dollar signs, split on whitespace and keep the tokens
clean_rate accepts. -/
def parse_rates_line (s : String) : List Dec :=
  if s = "" then []
  else
    ((wsSplitAux [] (s.data.filter (fun c => c.toNat ≠ 36))).map String.mk).filterMap clean_rate

/-- parse_zone_numbers of the source: integer tokens that lie in 1..16. -/
def parse_zone_numbers (s : String) : List Int :=
  if s = "" then []
  else
    (pySplitWs s).filterMap (fun p =>
      match parseInt? p with
      | some z => if 1 ≤ z ∧ z ≤ 16 then some z else none
      | none => none)

/-- parse_weight_from_line of the source: first a regex match of digits
followed by optional whitespace and the letters l b anchored at the
start of the stripped line; failing that, an integer first token in
1..2000. -/
def parse_weight_from_line (s0 : String) : Option Int :=
  let line := pyStripChars s0.data
  if line.isEmpty then none
  else
    let ds := line.takeWhile isDigitB
    let rest := (line.dropWhile isDigitB).dropWhile isPyWs
    let regexHit : Bool :=
      !ds.isEmpty &&
        (match rest with
         | a :: b :: _ => a.toNat = 108 && b.toNat = 98
         | _ => false)
    if regexHit then some (digitsToNat ds : Int)
    else
      match wsSplitAux [] line with
      | [] => none
      | t :: _ =>
        match parseInt? (String.mk t) with
        | some w => if 1 ≤ w ∧ w ≤ 2000 then some w else none
        | none => none

/-- Insertion-ordered dictionary update, as Python dict assignment: an
existing key is overwritten in place, a new key is appended. -/
def dinsert {α β : Type} [DecidableEq α] : List (α × β) → α → β → List (α × β)
  | [], k, v => [(k, v)]
  | (k1, v1) :: rest, k, v =>
    if k1 = k then (k, v) :: rest else (k1, v1) :: dinsert rest k v

/-- Dictionary lookup. -/
def dget? {α β : Type} [DecidableEq α] (m : List (α × β)) (k : α) : Option β :=
  (m.find? (fun p => decide (p.1 = k))).map Prod.snd

/-- Two-level dictionary lookup. -/
def dget2 {α γ β : Type} [DecidableEq α] [DecidableEq γ]
    (m : List (α × List (γ × β))) (k : α) (k2 : γ) : Option β :=
  match dget? m k with
  | some inner => dget? inner k2
  | none => none

/-- The shared step of the two synthesis loops: when the partial map g
accepts the key, insert the computed value, otherwise leave the
dictionary unchanged. -/
def dstepOpt {α γ β : Type} [DecidableEq α] (g : α → Option γ) (h : α → γ → β)
    (m : List (α × β)) (z : α) : List (α × β) :=
  match g z with
  | none => m
  | some r => dinsert m z (h z r)

/-- A raw table cell as the extraction library hands it over: absent or
a string that may contain embedded newlines. -/
abbrev Cell := Option String

/-- A raw table row. -/
abbrev Row := List Cell

/-- A raw extracted table. -/
abbrev RawTable := List Row

/-- The embedded lines of a cell: an absent cell counts as one empty
line, a present cell is split on its newlines. -/
def splitCellLines (c : Cell) : List String :=
  match c with
  | none => [""]
  | some s => (splitNl s.data).map String.mk

/-- max_lines of a row in the source: the maximum embedded-line count
over the cells, starting from 1. -/
def rowMaxLines (row : Row) : Nat :=
  (row.map (fun c => (splitCellLines c).length)).foldl Nat.max 1

/-- Normalization of one raw row, exactly as both rate parsers do it:
an empty row is dropped; a row whose cells are all single-line is kept
verbatim; otherwise the row is fanned out into rowMaxLines rows whose
cells are the stripped embedded lines, padded with empty strings. -/
def normRow (row : Row) : List Row :=
  if row.isEmpty then []
  else if rowMaxLines row = 1 then [row]
  else
    (List.range (rowMaxLines row)).map (fun li =>
      row.map (fun c => some (pyStrip (((splitCellLines c)[li]?).getD ""))))

/-- Normalization of a raw table: the concatenation of the normalized
rows, in order. -/
def normalizeTable (t : RawTable) : List Row :=
  t.foldl (fun acc row => acc ++ normRow row) []

/-- The Python idiom str(cell).strip() if cell else the empty string. -/
def cellStr (c : Cell) : String :=
  match c with
  | none => ""
  | some s => if s = "" then "" else pyStrip s

/-- The Python idiom str(cell) if cell else the empty string (no
strip), used by the matrix parser. -/
def rawCellStr (c : Cell) : String :=
  match c with
  | none => ""
  | some s => s

/-- Indexing a row, absent outside the bounds. -/
def cget (row : Row) (i : Nat) : Cell := (row[i]?).getD none

/-- Python truthiness of a cell: present and nonempty. -/
def truthyCell (c : Cell) : Bool :=
  match c with
  | none => false
  | some s => decide (s ≠ "")

/-- A page as the engine consumes it: extracted text and raw tables. -/
structure PdfPage where
  text : String
  tables : List RawTable
deriving DecidableEq

/-- State threaded through the flat-rate scan: the directly parsed
rates and the captured per-pound overage rates. -/
structure NFState where
  rates : List (Int × List (Int × Dec))
  per_pound : List (Int × Dec)
deriving DecidableEq

/-- Positional capture of one rate per zone, lengths already matched:
per_zone[zones[i]] takes values[i]. -/
def znInsert (m : List (Int × Dec)) (zs : List Int) (vs : List Dec) : List (Int × Dec) :=
  (zs.zip vs).foldl (fun acc p => dinsert acc p.1 p.2) m

/-- Zone-header search of the flat builder: the first truthy cell in
the first 5 normalized rows whose parse_zone_numbers yields at least 7
zones, scanned in row-major order. -/
def findZonesNF (table : List Row) : List Int :=
  match (table.take 5).flatten.find? (fun c =>
      truthyCell c && decide (7 ≤ (parse_zone_numbers (rawCellStr c)).length)) with
  | some c => parse_zone_numbers (rawCellStr c)
  | none => []

/-- One normalized row of the flat builder: skip repeated headers and
envelope or pak product lines; a per-100-lb line records per-pound
overage rates; otherwise a weight in 1..99 records its prices
positionally against the zone header. -/
def processNFRow (zones : List Int) (st : NFState) (row : Row) : NFState :=
  if row.length < 2 then st
  else
    let wc := cellStr (cget row 0)
    let rc := cellStr (cget row 1)
    if containsLow wc "weight" || containsLow wc "zone" then st
    else if containsLow wc "envelope" || containsLow wc "pak" then st
    else if containsLow wc "100 lbs" || containsLowNS wc "100lbs" then
      let rv := parse_rates_line rc
      if rv.length = zones.length then { st with per_pound := znInsert st.per_pound zones rv }
      else st
    else
      match parse_weight_from_line wc with
      | none => st
      | some w =>
        if w < 1 ∨ 99 < w then st
        else
          let rv := parse_rates_line rc
          if rv.isEmpty then st
          else
            let inner := (dget? st.rates w).getD []
            let inner2 := rv.enum.foldl (fun acc p =>
              match zones[p.1]? with
              | some z => dinsert acc z p.2
              | none => acc) inner
            { st with rates := dinsert st.rates w inner2 }

/-- One raw table of the flat builder: normalize, find the zone header
in the first 5 rows, then process every row. -/
def processNFTable (st : NFState) (raw : RawTable) : NFState :=
  let table := normalizeTable raw
  if table.isEmpty then st
  else
    let zones := findZonesNF table
    if zones.isEmpty then st
    else table.foldl (processNFRow zones) st

/-- The flat-rate scan over a page span. -/
def scanNF (pages : List PdfPage) : NFState :=
  pages.foldl (fun st pg => pg.tables.foldl processNFTable st) ⟨[], []⟩

/-- The zones 1..16 iterated by both synthesis loops. -/
def zoneInts : List Int := (List.range' 1 16).map (fun n : Nat => (n : Int))

/-- The weights 100..150 iterated by the flat synthesis loop. -/
def nfWeights : List Int := (List.range' 100 51).map (fun n : Nat => (n : Int))

/-- The weights 151..2000 iterated by the freight expansion loop. -/
def freightWeights : List Int := (List.range' 151 1850).map (fun n : Nat => (n : Int))

/-- A synthesized price: weight times per-pound rate, quantized to two
digits with ROUND_HALF_UP. -/
def synthPrice (w : Int) (r : Dec) : Dec := quant2 (decMulInt w r)

/-- The zone map synthesized for one weight from the per-pound overage
rates: for every zone 1..16 holding a captured rate, insert the
synthesized price. -/
def synthInner (pp : List (Int × Dec)) (w : Int) : List (Int × Dec) :=
  zoneInts.foldl (dstepOpt (fun z => dget? pp z) (fun _ r => synthPrice w r)) []

/-- parse_non_freight_rates of the source: scan the page span, then
for every weight 100..150 replace the entry by the synthesized zone
map. -/
def parse_non_freight_rates (pages : List PdfPage) : List (Int × List (Int × Dec)) :=
  let st := scanNF pages
  nfWeights.foldl (fun m w => dinsert m w (synthInner st.per_pound w)) st.rates

/-- The six canonical bracket phrases of the freight builder, in the
order the source declares them. -/
def bracketTable : List (String × (Int × Int)) :=
  [("151 to 299", (151, 299)),
   ("300 to 499", (300, 499)),
   ("500 to 999", (500, 999)),
   ("1000 to 1999", (1000, 1999)),
   ("1000 to1999", (1000, 1999)),
   ("2000 or more", (2000, 2000))]

/-- State threaded through the freight scan: per-bracket per-zone
per-pound rates and per-zone minimum charges. -/
structure FRState where
  per_pound : List ((Int × Int) × List (Int × Dec))
  minimums : List (Int × Dec)
deriving DecidableEq

/-- One normalized row of the freight builder, with the page's current
zone header as extra state: before a header is found, a row whose
second column yields at least 7 zones becomes the header; afterwards a
minimum row records minimum charges and a bracket row records per-pound
rates for the first matching bracket phrase. -/
def processFRRow (acc : List Int × FRState) (row : Row) : List Int × FRState :=
  let zones := acc.1
  let st := acc.2
  if row.length < 2 then acc
  else
    let wc := cellStr (cget row 0)
    let rc := cellStr (cget row 1)
    if zones.isEmpty then
      let found := parse_zone_numbers rc
      if 7 ≤ found.length then (found, st) else acc
    else if containsLow wc "minimum" then
      let rv := parse_rates_line rc
      if rv.length = zones.length then (zones, { st with minimums := znInsert st.minimums zones rv })
      else acc
    else
      match bracketTable.find? (fun b => containsLowNS wc b.1) with
      | none => acc
      | some b =>
        let rv := parse_rates_line rc
        if rv.length = zones.length then
          let inner := (dget? st.per_pound b.2).getD []
          (zones, { st with per_pound := dinsert st.per_pound b.2 (znInsert inner zones rv) })
        else acc

/-- One freight page: only the first extracted table is read. -/
def processFRPage (st : FRState) (pg : PdfPage) : FRState :=
  match pg.tables with
  | [] => st
  | raw :: _ => ((normalizeTable raw).foldl processFRRow ([], st)).2

/-- The freight scan over a page span. -/
def scanFreight (pages : List PdfPage) : FRState :=
  pages.foldl processFRPage ⟨[], []⟩

/-- Bracket assignment of a discrete freight weight. -/
def freightBracket (w : Int) : Int × Int :=
  if w ≤ 299 then (151, 299)
  else if w ≤ 499 then (300, 499)
  else if w ≤ 999 then (500, 999)
  else if w ≤ 1999 then (1000, 1999)
  else (2000, 2000)

/-- A freight price: weight times per-pound rate quantized half-up to
two digits, raised to the per-zone minimum charge when one exists. -/
def freightPrice (mins : List (Int × Dec)) (z : Int) (w : Int) (r : Dec) : Dec :=
  let c := quant2 (decMulInt w r)
  match dget? mins z with
  | some mc => decMax c mc
  | none => c

/-- The zone map expanded for one freight weight: nothing when the
bracket holds no per-pound rates, else one price per zone 1..16 with a
rate. -/
def expandInner (st : FRState) (w : Int) : List (Int × Dec) :=
  match dget? st.per_pound (freightBracket w) with
  | none => []
  | some zm =>
    zoneInts.foldl (dstepOpt (fun z => dget? zm z)
      (fun z r => freightPrice st.minimums z w r)) []

/-- parse_freight_rates of the source: scan the page span, then expand
every weight 151..2000 into its per-zone prices. -/
def parse_freight_rates (pages : List PdfPage) : List (Int × List (Int × Dec)) :=
  let st := scanFreight pages
  freightWeights.foldl (fun m w => dinsert m w (expandInner st w)) []

/-- Uppercase ASCII letter test. -/
def isUpperAZ (c : Char) : Bool := 65 ≤ c.toNat && c.toNat ≤ 90

/-- The three dash variants the postal-range pattern accepts. -/
def isDashCh (c : Char) : Bool := c = '—' || c = '–' || c = '-'

/-- Match of one 3-character postal code, letter digit letter, at the
head of a character list, returning it with the rest. -/
def matchCode3 : List Char → Option (String × List Char)
  | a :: b :: c :: rest =>
    if isUpperAZ a && isDigitB b && isUpperAZ c then some (String.mk [a, b, c], rest)
    else none
  | _ => none

/-- Match of one zone code, the letter D then a capital letter, at the
head of a character list. -/
def matchZone2 : List Char → Option (String × List Char)
  | a :: b :: rest =>
    if a.toNat = 68 && isUpperAZ b then some (String.mk [a, b], rest)
    else none
  | _ => none

/-- Match of the postal-range regex at the head of a character list:
code, optional whitespace, a dash variant, optional whitespace, code,
mandatory whitespace, zone code.  Returns the three groups and the
remaining characters. -/
def matchRangeAt (cs : List Char) : Option (((String × String) × String) × List Char) :=
  match matchCode3 cs with
  | none => none
  | some (c1, r1) =>
    match r1.dropWhile isPyWs with
    | [] => none
    | d :: r3 =>
      if isDashCh d then
        let r4 := r3.dropWhile isPyWs
        match matchCode3 r4 with
        | none => none
        | some (c2, r5) =>
          let r6 := r5.dropWhile isPyWs
          if r6.length < r5.length then
            match matchZone2 r6 with
            | some (z, r7) => some (((c1, c2), z), r7)
            | none => none
          else none
      else none

/-- Left-to-right non-overlapping scan for the postal-range regex, as
re.finditer performs it; the fuel equals the character count, which one
step always consumes at least one of. -/
def regexScanFuel : Nat → List Char → List (((String × String) × String))
  | 0, _ => []
  | _, [] => []
  | fuel + 1, c :: rest =>
    match matchRangeAt (c :: rest) with
    | some (e, rem) => e :: regexScanFuel fuel rem
    | none => regexScanFuel fuel rest

/-- The regex pass of the postal-index parser: every range match,
recorded in order into the map. -/
def regexPass (text : String) : List ((String × String) × String) :=
  (regexScanFuel text.data.length text.data).foldl (fun m e => dinsert m e.1 e.2) []

/-- Full-token match of the anchored 3-character postal code pattern. -/
def isCode3B (s : String) : Bool :=
  match s.data with
  | [a, b, c] => isUpperAZ a && isDigitB b && isUpperAZ c
  | _ => false

/-- Full-token match of the anchored zone code pattern. -/
def isZoneTokB (s : String) : Bool :=
  match s.data with
  | [a, b] => a.toNat = 68 && isUpperAZ b
  | _ => false

/-- A token that is one of the three dash variants. -/
def isDashTok (s : String) : Bool := s = "—" || s = "–" || s = "-"

/-- The guard of the token-scan fallback: some recorded range starts at
this code and ends elsewhere. -/
def alreadyCoveredB (m : List ((String × String) × String)) (p : String) : Bool :=
  m.any (fun e => decide (e.1.1 = p) && decide (e.1.2 ≠ p))

/-- The next token is a zone code. -/
def nextIsZone (rest : List String) : Bool :=
  match rest.head? with
  | some nx => isZoneTokB nx
  | none => false

/-- The previous token is a dash variant. -/
def prevIsDash (prev : Option String) : Bool :=
  match prev with
  | some pv => isDashTok pv
  | none => false

/-- The token scan over the whitespace tokens of one line, carrying the
previous token: a postal code followed by a zone code registers the
single-code range, unless the code is preceded by a dash (then both
tokens are skipped) or a wider recorded range already starts at it. -/
def tokParts : Option String → List String → List ((String × String) × String) →
    List ((String × String) × String)
  | _, [], m => m
  | prev, p :: rest, m =>
    if isCode3B p && nextIsZone rest then
      if prevIsDash prev then
        match rest with
        | nx :: rest2 => tokParts (some nx) rest2 m
        | [] => m
      else
        tokParts (some p) rest
          (if alreadyCoveredB m p then m else dinsert m (p, p) (rest.head?.getD ""))
    else tokParts (some p) rest m

/-- One line of the token scan: header lines naming both Postal Code
and Zone are skipped. -/
def tokenLine (m : List ((String × String) × String)) (line : String) :
    List ((String × String) × String) :=
  if strContains line "Postal Code" && strContains line "Zone" then m
  else tokParts none (pySplitWs line) m

/-- The postal-index map built from one page text: the regex pass
first, then the token-scan fallback over the lines. -/
def postalMapFromText (text : String) : List ((String × String) × String) :=
  (splitOnNl text).foldl tokenLine (regexPass text)

/-- The fixed catalog of 26 zone codes. -/
def ZONE_CODES : List String :=
  ["DA", "DB", "DC", "DD", "DE", "DF", "DG", "DH", "DI", "DJ",
   "DK", "DL", "DM", "DN", "DO", "DP", "DQ", "DR", "DS", "DT",
   "DU", "DV", "DW", "DX", "DY", "DZ"]

/-- Python max over the extracted tables keyed by row count: the first
table attaining the maximum. -/
def selectMatrixTable (tables : List RawTable) : Option RawTable :=
  match tables with
  | [] => none
  | t0 :: ts => some (ts.foldl (fun best t => if best.length < t.length then t else best) t0)

/-- One row of the matrix parser: skip headers, split the origin cell
and the values cell on their embedded newlines, and for every stacked
origin that is a recognized zone code whose aligned values line parses
into exactly 26 integers, bind the 26 destination codes positionally. -/
def pzmRow (m : List ((String × String) × Int)) (row : Row) : List ((String × String) × Int) :=
  if row.length < 2 then m
  else
    let fc := rawCellStr (cget row 0)
    let sc := rawCellStr (cget row 1)
    if strContains fc "Origin" || strContains fc "Destination" then m
    else if strContains sc "DA DB DC" then m
    else
      let oc := pyStrip fc
      let vc := pyStrip sc
      if oc = "" ∨ vc = "" then m
      else
        let olines := splitOnNl oc
        let vlines := splitOnNl vc
        olines.enum.foldl (fun m2 p =>
          let oz := pyStrip p.2
          if oz ∈ ZONE_CODES then
            match vlines[p.1]? with
            | none => m2
            | some vl =>
              let values := (pySplitWs (pyStrip vl)).filterMap parseInt?
              if values.length = ZONE_CODES.length then
                (ZONE_CODES.zip values).foldl (fun m3 q => dinsert m3 (oz, q.1) q.2) m2
              else m2
          else m2) m

/-- parse_zone_matrix of the source over the extracted tables of the
matrix page: pick the largest table by row count and fold its rows. -/
def zoneMatrixFromTables (tables : List RawTable) : List ((String × String) × Int) :=
  match selectMatrixTable tables with
  | none => []
  | some zt => zt.foldl pzmRow []

/-- Uppercase of an ASCII character, as Python str.upper acts on the
postal prefix. -/
def pyToUpper (c : Char) : Char :=
  if 97 ≤ c.toNat ∧ c.toNat ≤ 122 then Char.ofNat (c.toNat - 32) else c

/-- Python lexicographic strict order on character lists, by code
point. -/
def lexLtB : List Char → List Char → Bool
  | [], [] => false
  | [], _ :: _ => true
  | _ :: _, [] => false
  | a :: as, b :: bs =>
    if a.toNat < b.toNat then true
    else if b.toNat < a.toNat then false
    else lexLtB as bs

/-- Python string less-or-equal, the negation of the reverse strict
order. -/
def strLeB (a b : String) : Bool := !(lexLtB b.data a.data)

/-- Python tuple comparison flattened: lexicographic strict order on
equal-length lists of strings given as character lists. -/
def listLexLt : List (List Char) → List (List Char) → Bool
  | [], [] => false
  | [], _ :: _ => true
  | _ :: _, [] => false
  | x :: xs, y :: ys =>
    if lexLtB x y then true
    else if lexLtB y x then false
    else listLexLt xs ys

/-- get_zone_code_for_postal of the source: take the first 3 characters
of the postal code uppercased and return the zone of the first recorded
range whose bounds bracket it. -/
def get_zone_code_for_postal (postal : String)
    (pmap : List ((String × String) × String)) : Option String :=
  let fsa := String.mk ((postal.data.take 3).map pyToUpper)
  (pmap.find? (fun e => strLeB e.1.1 fsa && strLeB fsa e.1.2)).map Prod.snd

/-- One row of the zone dataset. -/
structure ZoneRow where
  country : String
  symbol : String
  zone : Int
  city : String
  startPostal : String
  endPostal : String
deriving DecidableEq

/-- The comparison key of a postal-map item: start code, end code,
zone code. -/
def entryKey (a : (String × String) × String) : List (List Char) :=
  [a.1.1.data, a.1.2.data, a.2.data]

/-- Python tuple comparison on postal-map items: lexicographic on start
code, end code, then zone code. -/
def entryLtB (a b : (String × String) × String) : Bool :=
  listLexLt (entryKey a) (entryKey b)

/-- The non-strict item order used by sorted. -/
def entryLe (a b : (String × String) × String) : Prop := entryLtB b a = false

instance : DecidableRel entryLe := fun a b => by unfold entryLe; infer_instance

/-- Python sorted over the postal-map items (a stable sort by the item
order). -/
def sortEntries (pmap : List ((String × String) × String)) :
    List ((String × String) × String) :=
  List.insertionSort entryLe pmap

/-- The zone dataset row appended for one destination range: country
fields, the matrix entry for the origin and destination zones or the
sentinel 16 when the matrix has none, an empty city, and the range
bounds. -/
def zoneRowOf (matrix : List ((String × String) × Int)) (oz : String)
    (e : (String × String) × String) : ZoneRow :=
  ⟨"Canada", "CA", (dget? matrix (oz, e.2)).getD 16, "", e.1.1, e.1.2⟩

/-- generate_zones_data of the source: resolve the origin; for every
destination range in ascending item order emit one ZoneRow. -/
def generate_zones_data (origin : String) (pmap : List ((String × String) × String))
    (matrix : List ((String × String) × Int)) : List ZoneRow :=
  match get_zone_code_for_postal origin pmap with
  | none => []
  | some oz => (sortEntries pmap).map (zoneRowOf matrix oz)

/-- A static service catalog entry. -/
structure ServiceDef where
  name : String
  search : String
  page_count : Nat
  is_freight : Bool
deriving DecidableEq

/-- A detected service with its claimed inclusive page span. -/
structure ServiceSpan where
  name : String
  startPage : Nat
  endPage : Nat
  is_freight : Bool
deriving DecidableEq

/-- The fixed service catalog of the source, in declaration order. -/
def SERVICE_DEFINITIONS : List ServiceDef :=
  [⟨"FedEx First Overnight", "FedEx First Overnight", 4, false⟩,
   ⟨"FedEx Priority Overnight", "FedEx Priority Overnight", 4, false⟩,
   ⟨"FedEx Standard Overnight", "FedEx Standard Overnight", 4, false⟩,
   ⟨"FedEx 2Day", "FedEx 2Day", 4, false⟩,
   ⟨"FedEx Economy", "FedEx Economy", 4, false⟩,
   ⟨"FedEx 1Day Freight", "FedEx 1Day", 2, true⟩]

/-- Title detection on one page: some line among the first 5 contains
both the search phrase and the word Rates. -/
def pageQualifiesB (texts : List String) (search : String) (i : Nat) : Bool :=
  match texts[i]? with
  | none => false
  | some t => ((splitOnNl t).take 5).any (fun l => strContains l search && strContains l "Rates")

/-- A page index lying in the claimed span of some already-assigned
service. -/
def claimedB (svcs : List ServiceSpan) (i : Nat) : Bool :=
  svcs.any (fun s => decide (s.startPage ≤ i) && decide (i ≤ s.endPage))

/-- The least index below the bound satisfying the predicate, the way
an ascending scan with break finds it. -/
def findIdxBelow (p : Nat → Bool) : Nat → Option Nat
  | 0 => none
  | n + 1 =>
    match findIdxBelow p n with
    | some s => some s
    | none => if p n then some n else none

/-- One catalog descriptor of the locator: bind the first qualifying
unclaimed page, or leave the accumulator unchanged. -/
def detectStep (texts : List String) (acc : List ServiceSpan) (d : ServiceDef) :
    List ServiceSpan :=
  match findIdxBelow (fun i => pageQualifiesB texts d.search i && !(claimedB acc i))
      texts.length with
  | none => acc
  | some s => acc ++ [⟨d.name, s, s + d.page_count - 1, d.is_freight⟩]

/-- detect_service_pages of the source, generalized to any catalog:
fold the descriptors in catalog order. -/
def detect_service_pages (texts : List String) (defs : List ServiceDef) :
    List ServiceSpan :=
  defs.foldl (detectStep texts) []

/-- find_zone_index_pages of the source: the first page containing each
of the two marker phrases. -/
def find_zone_index_pages (pages : List PdfPage) : Option Nat × Option Nat :=
  (findIdxBelow (fun i =>
      match pages[i]? with
      | some p => strContains p.text "Postal Code Zone Index"
      | none => false) pages.length,
   findIdxBelow (fun i =>
      match pages[i]? with
      | some p => strContains p.text "Intra-Canada Zone Index"
      | none => false) pages.length)

/-- parse_postal_code_to_zone_mapping of the source: empty when no
postal-index page was found. -/
def parse_postal_code_to_zone_mapping (pages : List PdfPage) (idx : Option Nat) :
    List ((String × String) × String) :=
  match idx with
  | none => []
  | some i =>
    match pages[i]? with
    | none => []
    | some pg => postalMapFromText pg.text

/-- parse_zone_matrix of the source: empty when no matrix page was
found. -/
def parse_zone_matrix (pages : List PdfPage) (idx : Option Nat) :
    List ((String × String) × Int) :=
  match idx with
  | none => []
  | some i =>
    match pages[i]? with
    | none => []
    | some pg => zoneMatrixFromTables pg.tables

/-- The inclusive page span a detected service hands to its builder:
the source materializes pdf.pages[i] for every i from the start page
to the end page with no bounds check, so a claimed span that overruns
the document raises IndexError; that failure is modelled as none,
while an in-range (or empty) span yields the slice. -/
def pageSpan? (pages : List PdfPage) (a b : Nat) : Option (List PdfPage) :=
  if b < pages.length ∨ b + 1 ≤ a then some ((pages.drop a).take (b + 1 - a))
  else none

/-- The outcome of the parse-ca-rates command on one document: the
optional zone dataset, the per-service rate tables, and the exit
code. -/
instance : DecidableEq (String × List (Int × List (Int × Dec)) × Bool) :=
  instDecidableEqProd

structure CAOutput where
  zones_data : Option (List ZoneRow)
  services_data : List (String × List (Int × List (Int × Dec)) × Bool)
  exitCode : Nat
deriving DecidableEq

/-- The per-service loop of the command: each detected service's page
span is materialized and handed to the freight or flat builder; the
first span that overruns the document aborts the whole command (the
source's uncaught IndexError), modelled as none. -/
def buildServicesData (pages : List PdfPage) :
    List ServiceSpan → Option (List (String × List (Int × List (Int × Dec)) × Bool))
  | [] => some []
  | s :: rest =>
    match pageSpan? pages s.startPage s.endPage with
    | none => none
    | some span =>
      match buildServicesData pages rest with
      | none => none
      | some tl =>
        some ((s.name,
          (if s.is_freight then parse_freight_rates span else parse_non_freight_rates span),
          s.is_freight) :: tl)

/-- cmd_parse_ca_rates of the source, restricted to its pure dataflow:
when an origin is supplied the zone index pages are located and parsed
(warnings only when absent) and the zone dataset generated; the
services are then detected and their builders run. A normal run
finishes with exit code 0; none models the crash by uncaught
IndexError when a detected service's claimed span overruns the page
list. -/
def cmd_parse_ca_rates (pages : List PdfPage) (origin : Option String) : Option CAOutput :=
  let zones_data := origin.map (fun o =>
    let idxs := find_zone_index_pages pages
    let pmap := parse_postal_code_to_zone_mapping pages idxs.1
    let matrix := parse_zone_matrix pages idxs.2
    generate_zones_data o pmap matrix)
  let svcs := detect_service_pages (pages.map PdfPage.text) SERVICE_DEFINITIONS
  match buildServicesData pages svcs with
  | none => none
  | some services_data => some ⟨zones_data, services_data, 0⟩

/-- A one-page flat-rate document whose only table holds a zone header
for zones 1..7 and a per-100-lb overage row of rate 1.00 per zone. -/
def flatExamplePages : List PdfPage :=
  [⟨"", [[[some "Weight (lb)", some "1 2 3 4 5 6 7"],
          [some "100 lbs", some "1.00 1.00 1.00 1.00 1.00 1.00 1.00"]]]⟩]

/-- A one-page freight document realizing the example of the spec: a
zone header for zones 1..7, a minimum charge of 150.00 for zone 5 (and
100.00 elsewhere), and a per-pound rate of 0.10 for zone 5 (0.05
elsewhere) in the bracket 1000 to 1999. -/
def freightExamplePages : List PdfPage :=
  [⟨"", [[[some "Weight", some "1 2 3 4 5 6 7"],
          [some "Minimum charge", some "100.00 100.00 100.00 100.00 150.00 100.00 100.00"],
          [some "1000 to 1999 lbs", some "0.05 0.05 0.05 0.05 0.10 0.05 0.05"]]]⟩]

/-- A one-page freight document in which the bracket phrase 500 to 999
occurs on two rows with different rates, 0.30 then 0.40. -/
def freightDupPages : List PdfPage :=
  [⟨"", [[[some "Weight", some "1 2 3 4 5 6 7"],
          [some "500 to 999 lbs", some "0.30 0.30 0.30 0.30 0.30 0.30 0.30"],
          [some "500 to 999 lbs", some "0.40 0.40 0.40 0.40 0.40 0.40 0.40"]]]⟩]

/-- A freight state already holding a rate of 0.30 for zone 1 in the
bracket 500 to 999, as a first matching row would have recorded it. -/
def preBracketState : FRState := ⟨[((500, 999), [(1, ⟨30, 2⟩)])], []⟩

/-- A later freight row matching the same bracket phrase with the rate
0.40 in every zone. -/
def dupBracketRow : Row :=
  [some "500 to 999 lbs", some "0.40 0.40 0.40 0.40 0.40 0.40 0.40"]

/-- A postal-index page text in which the regex pass finds the range
A1A to B2B and the token scan then meets the bare code A1A followed by
a zone code on a later line. -/
def postalExampleText : String := "Postal Code Zone Index\nA1A — B2B DA\nA1A DC\nC3C DD"

/-- A matrix table with one origin row DA whose 26 values start with 0,
an integer outside 1..16. -/
def matrixExampleTable : RawTable :=
  [[some "DA", some "0 5 1 1 1 1 1 1 1 1 1 1 1 1 1 1 1 1 1 1 1 1 1 1 1 1"]]

/-- A postal map of two ranges, deliberately recorded out of ascending
order. -/
def examplePostalMap : List ((String × String) × String) :=
  [(("M5W", "M5Z"), "DB"), (("M5V", "M5V"), "DA")]

/-- A matrix holding only the pair DA to DB. -/
def exampleMatrix : List ((String × String) × Int) := [(("DA", "DB"), 5)]

/-- A document holding a postal-index page but no matrix page. -/
def noMatrixPages : List PdfPage := [⟨"Postal Code Zone Index\nM5V — M5Z DA", []⟩]

/-- A raw table of one two-cell row, the first cell two-line, the
second absent. -/
def normExampleTable : RawTable := [[some "a\nb", none]]

/-- Follows the words of the spec: the output row count of the table
normalizer is, per input row, the maximum embedded-line count across
that row's cells with a minimum of 1, summed over the rows. -/
def specNormalizedRowCount (t : RawTable) : Nat :=
  (t.map (fun row =>
    Nat.max 1 ((row.map (fun c => (splitCellLines c).length)).foldl Nat.max 0))).foldl (· + ·) 0

/-- Follows the words of the spec for the service locator: descriptors
are processed strictly in catalog order; a descriptor binds the first
page that qualifies (its first 5 lines contain the detection phrase
together with the word Rates) and lies outside every span claimed by
the earlier-assigned services, claiming the inclusive span from that
page of the descriptor's page count; a descriptor with no such page is
silently omitted. -/
inductive DetectSpec (texts : List String) :
    List ServiceDef → List ServiceSpan → List ServiceSpan → Prop where
  | nil : ∀ acc, DetectSpec texts [] acc acc
  | found : ∀ d ds acc out s,
      s < texts.length →
      pageQualifiesB texts d.search s = true →
      claimedB acc s = false →
      (∀ p, p < s → pageQualifiesB texts d.search p = false ∨ claimedB acc p = true) →
      DetectSpec texts ds (acc ++ [⟨d.name, s, s + d.page_count - 1, d.is_freight⟩]) out →
      DetectSpec texts (d :: ds) acc out
  | notFound : ∀ d ds acc out,
      (∀ p, p < texts.length → pageQualifiesB texts d.search p = false ∨ claimedB acc p = true) →
      DetectSpec texts ds acc out →
      DetectSpec texts (d :: ds) acc out

/-- The integer tokens recoverable from the values cell of one matrix
row, collected over its embedded lines exactly as the matrix parser
reads them. -/
def rowValueInts (row : Row) : List Int :=
  if row.length < 2 then []
  else
    (splitOnNl (pyStrip (rawCellStr (cget row 1)))).flatMap
      (fun vl => (pySplitWs (pyStrip vl)).filterMap parseInt?)

/-- All integer tokens of the values cells of a table. -/
def tableValueInts (t : RawTable) : List Int := t.flatMap rowValueInts

/-- Range order on two zone dataset rows: the second row's postal
range is not lexicographically below the first row's. -/
def rangeLeB (r1 r2 : ZoneRow) : Bool :=
  !(listLexLt [r2.startPostal.data, r2.endPostal.data] [r1.startPostal.data, r1.endPostal.data])

/-! Dictionary lemmas. -/

theorem dget?_nil {α β : Type} [DecidableEq α] (k : α) :
    dget? ([] : List (α × β)) k = none := rfl

theorem dget?_cons {α β : Type} [DecidableEq α] (k1 : α) (v1 : β) (tl : List (α × β)) (k : α) :
    dget? ((k1, v1) :: tl) k = if k1 = k then some v1 else dget? tl k := by
  by_cases h : k1 = k <;> simp [dget?, List.find?, h]

theorem dget?_dinsert_self {α β : Type} [DecidableEq α] (m : List (α × β)) (k : α) (v : β) :
    dget? (dinsert m k v) k = some v := by
  induction m with
  | nil => simp [dinsert, dget?_cons]
  | cons hd tl ih =>
    rcases hd with ⟨k1, v1⟩
    by_cases h : k1 = k
    · simp [dinsert, h, dget?_cons]
    · simp [dinsert, h, dget?_cons, ih]

theorem dget?_dinsert_ne {α β : Type} [DecidableEq α] (m : List (α × β)) (k k' : α) (v : β)
    (h : k' ≠ k) : dget? (dinsert m k v) k' = dget? m k' := by
  induction m with
  | nil => simp [dinsert, dget?_cons, dget?_nil, Ne.symm h]
  | cons hd tl ih =>
    rcases hd with ⟨k1, v1⟩
    by_cases h1 : k1 = k
    · subst h1
      simp [dinsert, dget?_cons, Ne.symm h]
    · simp [dinsert, h1, dget?_cons, ih]

theorem dget?_dinsert_cases {α β : Type} [DecidableEq α] (m : List (α × β)) (k k' : α)
    (v w : β) (h : dget? (dinsert m k v) k' = some w) :
    (k' = k ∧ w = v) ∨ dget? m k' = some w := by
  by_cases hk : k' = k
  · subst hk
    rw [dget?_dinsert_self] at h
    exact Or.inl ⟨rfl, (Option.some_inj.mp h).symm⟩
  · rw [dget?_dinsert_ne m k k' v hk] at h
    exact Or.inr h

theorem dmem_dinsert {α β : Type} [DecidableEq α] (m : List (α × β)) (k k' : α) (v : β)
    (h : (dget? m k').isSome) : (dget? (dinsert m k v) k').isSome := by
  by_cases hk : k' = k
  · subst hk; rw [dget?_dinsert_self]; rfl
  · rw [dget?_dinsert_ne m k k' v hk]; exact h

/-- A fold that inserts a computed value at every key of a list: the
lookup afterwards is the computed value on the listed keys and the
original entry elsewhere. -/
theorem dget?_foldl_insert {α β : Type} [DecidableEq α] (f : α → β) (ws : List α)
    (acc : List (α × β)) (k : α) :
    dget? (ws.foldl (fun m w => dinsert m w (f w)) acc) k =
      if k ∈ ws then some (f k) else dget? acc k := by
  induction ws generalizing acc with
  | nil => simp
  | cons w ws ih =>
    rw [List.foldl_cons, ih]
    by_cases hmem : k ∈ ws
    · simp [hmem, List.mem_cons]
    · by_cases hk : k = w
      · subst hk
        simp [hmem, dget?_dinsert_self]
      · simp [hmem, hk, dget?_dinsert_ne acc w k (f w) hk]

/-- A fold that inserts a computed value at the keys a partial map
accepts. -/
theorem dget?_foldl_opt {α γ β : Type} [DecidableEq α] (g : α → Option γ) (h : α → γ → β)
    (zs : List α) (acc : List (α × β)) (k : α) :
    dget? (zs.foldl (dstepOpt g h) acc) k =
      match g k with
      | some r => if k ∈ zs then some (h k r) else dget? acc k
      | none => dget? acc k := by
  induction zs generalizing acc with
  | nil => cases hg : g k <;> simp
  | cons z zs ih =>
    rw [List.foldl_cons, ih]
    cases hg : g k with
    | none =>
      unfold dstepOpt
      cases hgz : g z with
      | none => simp
      | some r =>
        by_cases hk : k = z
        · subst hk; rw [hg] at hgz; cases hgz
        · simp [dget?_dinsert_ne acc z k (h z r) hk]
    | some r =>
      unfold dstepOpt
      by_cases hmem : k ∈ zs
      · simp [hmem, List.mem_cons]
      · by_cases hk : k = z
        · subst hk
          rw [hg]
          simp [hmem, hg, dget?_dinsert_self]
        · cases hgz : g z with
          | none => simp [hmem, hk]
          | some r2 => simp [hmem, hk, dget?_dinsert_ne acc z k (h z r2) hk]

/-- A fold inserting explicit pairs does not touch keys outside the
pair list. -/
theorem dget?_foldl_pairs_ne {α β : Type} [DecidableEq α] (ps : List (α × β))
    (acc : List (α × β)) (k : α) (h : k ∉ ps.map Prod.fst) :
    dget? (ps.foldl (fun m p => dinsert m p.1 p.2) acc) k = dget? acc k := by
  induction ps generalizing acc with
  | nil => rfl
  | cons p ps ih =>
    rw [List.map_cons] at h
    rw [List.foldl_cons, ih _ (fun hc => h (List.mem_cons_of_mem _ hc))]
    exact dget?_dinsert_ne acc p.1 k p.2 (fun hc => h (hc ▸ List.mem_cons_self _ _))

/-- A fold inserting explicit pairs with pairwise distinct keys stores
each listed pair. -/
theorem dget?_foldl_pairs_mem {α β : Type} [DecidableEq α] (ps : List (α × β))
    (acc : List (α × β)) (k : α) (v : β) (hnd : (ps.map Prod.fst).Nodup)
    (hmem : (k, v) ∈ ps) :
    dget? (ps.foldl (fun m p => dinsert m p.1 p.2) acc) k = some v := by
  induction ps generalizing acc with
  | nil => cases hmem
  | cons p ps ih =>
    rw [List.map_cons, List.nodup_cons] at hnd
    rw [List.foldl_cons]
    rcases List.mem_cons.mp hmem with heq | htl
    · subst heq
      rw [dget?_foldl_pairs_ne ps _ k hnd.1]
      exact dget?_dinsert_self acc k v
    · exact ih _ hnd.2 htl

/-- Every value a fold of computed-key insertions can deliver is a
listed value or one already present. -/
theorem dget?_foldl_insert_sub {α β γ : Type} [DecidableEq α] (kf : γ → α) (vf : γ → β)
    (l : List γ) (acc : List (α × β)) (k : α) (w : β)
    (h : dget? (l.foldl (fun m q => dinsert m (kf q) (vf q)) acc) k = some w) :
    w ∈ l.map vf ∨ dget? acc k = some w := by
  induction l generalizing acc with
  | nil => exact Or.inr h
  | cons q l ih =>
    rw [List.foldl_cons] at h
    rcases ih _ h with hv | hacc
    · exact Or.inl (List.mem_cons_of_mem _ hv)
    · rcases dget?_dinsert_cases acc (kf q) k (vf q) w hacc with ⟨_, rfl⟩ | hold
      · exact Or.inl (List.mem_cons_self _ _)
      · exact Or.inr hold

/-- Folding a step function that preserves a predicate preserves it
from the initial accumulator. -/
theorem foldl_preserve {γ α : Type} {P : γ → Prop} (f : γ → α → γ) (l : List α) (init : γ)
    (h0 : P init) (hstep : ∀ m a, a ∈ l → P m → P (f m a)) : P (l.foldl f init) := by
  induction l generalizing init with
  | nil => exact h0
  | cons a l ih =>
    exact ih (f init a) (hstep init a (List.mem_cons_self _ _) h0)
      (fun m b hb hm => hstep m b (List.mem_cons_of_mem _ hb) hm)

/-- A fold that appends blocks equals the initial list followed by the
concatenation of the blocks. -/
theorem foldl_append_blocks {α β : Type} (f : α → List β) (l : List α) (acc : List β) :
    l.foldl (fun a x => a ++ f x) acc = acc ++ l.flatMap f := by
  induction l generalizing acc with
  | nil => simp
  | cons x l ih => simp [ih, List.append_assoc]

/-! Membership in the iterated integer ranges. -/

theorem mem_intRangeList (a len : Nat) (w : Int) :
    w ∈ (List.range' a len).map (fun n : Nat => (n : Int)) ↔ (a : Int) ≤ w ∧ w < (a : Int) + len := by
  constructor
  · intro h
    rcases List.mem_map.mp h with ⟨n, hn, rfl⟩
    rcases List.mem_range'_1.mp hn with ⟨h1, h2⟩
    omega
  · intro h
    exact List.mem_map.mpr ⟨w.toNat, List.mem_range'_1.mpr ⟨by omega, by omega⟩, by omega⟩

theorem mem_zoneInts (z : Int) : z ∈ zoneInts ↔ 1 ≤ z ∧ z ≤ 16 := by
  rw [zoneInts, mem_intRangeList]
  omega

theorem mem_nfWeights (w : Int) : w ∈ nfWeights ↔ 100 ≤ w ∧ w ≤ 150 := by
  rw [nfWeights, mem_intRangeList]
  omega

theorem mem_freightWeights (w : Int) : w ∈ freightWeights ↔ 151 ≤ w ∧ w ≤ 2000 := by
  rw [freightWeights, mem_intRangeList]
  omega

/-! Characterizations of the two expansion stages. -/

theorem dget2_of_some {α γ β : Type} [DecidableEq α] [DecidableEq γ]
    (m : List (α × List (γ × β))) (k : α) (k2 : γ) (inner : List (γ × β))
    (h : dget? m k = some inner) : dget2 m k k2 = dget? inner k2 := by
  unfold dget2
  rw [h]

theorem dget2_of_none {α γ β : Type} [DecidableEq α] [DecidableEq γ]
    (m : List (α × List (γ × β))) (k : α) (k2 : γ)
    (h : dget? m k = none) : dget2 m k k2 = none := by
  unfold dget2
  rw [h]

theorem dget?_synthInner (pp : List (Int × Dec)) (w z : Int) :
    dget? (synthInner pp w) z =
      match dget? pp z with
      | some r => if z ∈ zoneInts then some (synthPrice w r) else none
      | none => none := by
  unfold synthInner
  rw [dget?_foldl_opt]
  cases hg : dget? pp z <;> simp [hg, dget?_nil]

theorem dget?_expandInner_none (st : FRState) (w z : Int)
    (hpp : dget? st.per_pound (freightBracket w) = none) :
    dget? (expandInner st w) z = none := by
  unfold expandInner
  simp only [hpp]
  rfl

theorem dget?_expandInner_some (st : FRState) (w z : Int) (zm : List (Int × Dec))
    (hpp : dget? st.per_pound (freightBracket w) = some zm) :
    dget? (expandInner st w) z =
      match dget? zm z with
      | some r => if z ∈ zoneInts then some (freightPrice st.minimums z w r) else none
      | none => none := by
  unfold expandInner
  simp only [hpp]
  rw [dget?_foldl_opt]
  cases hg : dget? zm z <;> simp [hg, dget?_nil]

theorem dget?_parse_freight (pages : List PdfPage) (w : Int) (hmem : w ∈ freightWeights) :
    dget? (parse_freight_rates pages) w = some (expandInner (scanFreight pages) w) := by
  simp only [parse_freight_rates]
  rw [dget?_foldl_insert]
  simp [hmem]

theorem dget?_parse_nf_mem (pages : List PdfPage) (w : Int) (hmem : w ∈ nfWeights) :
    dget? (parse_non_freight_rates pages) w =
      some (synthInner (scanNF pages).per_pound w) := by
  simp only [parse_non_freight_rates]
  rw [dget?_foldl_insert]
  simp [hmem]

theorem dget?_parse_nf_notmem (pages : List PdfPage) (w : Int) (hmem : w ∉ nfWeights) :
    dget? (parse_non_freight_rates pages) w = dget? (scanNF pages).rates w := by
  simp only [parse_non_freight_rates]
  rw [dget?_foldl_insert]
  simp [hmem]

theorem synthInner_nil (w : Int) : synthInner [] w = [] := rfl

/-! Claim theorems. -/

/-- C1: after the freight scan of a page span, the expanded table
assigns to each discrete weight w in 151..2000 and each zone z in
1..16 whose bracket holds a per-pound rate r the price
round_half_up(w times r, 2 digits), raised to the per-zone minimum
charge when one is defined, and no entry at all for zones without a
per-pound rate in the bracket. -/
theorem freight_table_values (pages : List PdfPage) (w z : Int)
    (hw1 : 151 ≤ w) (hw2 : w ≤ 2000) (hz1 : 1 ≤ z) (hz2 : z ≤ 16) :
    (∀ r : Dec, dget2 (scanFreight pages).per_pound (freightBracket w) z = some r →
        dget2 (parse_freight_rates pages) w z =
          some (match dget? (scanFreight pages).minimums z with
                | some mc => decMax (quant2 (decMulInt w r)) mc
                | none => quant2 (decMulInt w r))) ∧
    (dget2 (scanFreight pages).per_pound (freightBracket w) z = none →
        dget2 (parse_freight_rates pages) w z = none) := by
  have hmem : w ∈ freightWeights := (mem_freightWeights w).mpr ⟨hw1, hw2⟩
  have hz : z ∈ zoneInts := (mem_zoneInts z).mpr ⟨hz1, hz2⟩
  have hkey := dget?_parse_freight pages w hmem
  constructor
  · intro r hr
    rw [dget2_of_some _ _ _ _ hkey]
    cases hpp : dget? (scanFreight pages).per_pound (freightBracket w) with
    | none => rw [dget2_of_none _ _ _ hpp] at hr; cases hr
    | some zm =>
      rw [dget2_of_some _ _ _ _ hpp] at hr
      rw [dget?_expandInner_some (scanFreight pages) w z zm hpp]
      simp only [hr, hz, if_true]
      rfl
  · intro hr
    rw [dget2_of_some _ _ _ _ hkey]
    cases hpp : dget? (scanFreight pages).per_pound (freightBracket w) with
    | none => exact dget?_expandInner_none (scanFreight pages) w z hpp
    | some zm =>
      rw [dget2_of_some _ _ _ _ hpp] at hr
      rw [dget?_expandInner_some (scanFreight pages) w z zm hpp]
      simp only [hr]

/-- C1 witness: on the concrete freight page of the spec example, the
per-pound rate for zone 5 in the bracket of weight 1200 is 0.10, the
minimum charge 150.00, and the expanded table gives 150.00 at weight
1200 and 199.90 at weight 1999. -/
theorem freight_table_values_witness :
    dget2 (scanFreight freightExamplePages).per_pound (freightBracket 1200) 5 =
        some ⟨10, 2⟩ ∧
    dget? (scanFreight freightExamplePages).minimums 5 = some ⟨15000, 2⟩ ∧
    dget2 (parse_freight_rates freightExamplePages) 1200 5 = some ⟨15000, 2⟩ ∧
    dget2 (parse_freight_rates freightExamplePages) 1999 5 = some ⟨19990, 2⟩ := by
  refine ⟨by decide, by decide, ?_, ?_⟩
  · have h := (freight_table_values freightExamplePages 1200 5 (by decide) (by decide)
      (by decide) (by decide)).1 ⟨10, 2⟩ (by decide)
    rw [h]
    decide
  · have h := (freight_table_values freightExamplePages 1999 5 (by decide) (by decide)
      (by decide) (by decide)).1 ⟨10, 2⟩ (by decide)
    rw [h]
    decide

/-- C2 counterexample: on a page whose only rate content is a
per-100-lb overage row, nothing is directly parsed, yet weight 100
zone 1 receives the synthesized price 100.00; synthesis therefore
reaches weight 100, not only 101..150 as the claim states. -/
theorem overage_band_counterexample :
    (scanNF flatExamplePages).rates = [] ∧
    dget2 (parse_non_freight_rates flatExamplePages) 100 1 = some ⟨10000, 2⟩ := by
  constructor
  · decide
  · decide

/-- C2 as amended: per-pound overage synthesis applies exactly to the
weights 100 through 150; every zone 1..16 with a captured rate r gets
round_half_up(w times r, 2 digits) there, zones without a captured
rate get no entry, and entries for weights up to 99, the only weights
direct parsing can produce, are left exactly as the scan recorded
them. -/
theorem overage_synthesis_band (pages : List PdfPage) (w z : Int)
    (hw1 : 100 ≤ w) (hw2 : w ≤ 150) (hz1 : 1 ≤ z) (hz2 : z ≤ 16) :
    (∀ r : Dec, dget? (scanNF pages).per_pound z = some r →
        dget2 (parse_non_freight_rates pages) w z = some (quant2 (decMulInt w r))) ∧
    (dget? (scanNF pages).per_pound z = none →
        dget2 (parse_non_freight_rates pages) w z = none) ∧
    (∀ w2 : Int, w2 ≤ 99 →
        dget? (parse_non_freight_rates pages) w2 = dget? (scanNF pages).rates w2) := by
  have hmem : w ∈ nfWeights := (mem_nfWeights w).mpr ⟨hw1, hw2⟩
  have hz : z ∈ zoneInts := (mem_zoneInts z).mpr ⟨hz1, hz2⟩
  have hkey := dget?_parse_nf_mem pages w hmem
  refine ⟨?_, ?_, ?_⟩
  · intro r hr
    rw [dget2_of_some _ _ _ _ hkey, dget?_synthInner]
    simp only [hr, hz, if_true]
    rfl
  · intro hr
    rw [dget2_of_some _ _ _ _ hkey, dget?_synthInner]
    simp only [hr]
  · intro w2 hw
    exact dget?_parse_nf_notmem pages w2 (fun hc => by
      rcases (mem_nfWeights w2).mp hc with ⟨h1, _⟩
      omega)

/-- C2 witness: on the concrete overage-only page, the captured rate
for zone 1 is 1.00 and weight 120 zone 1 receives 120.00, while every
weight up to 99 keeps its scanned entry (here none). -/
theorem overage_synthesis_band_witness :
    dget? (scanNF flatExamplePages).per_pound 1 = some ⟨100, 2⟩ ∧
    dget2 (parse_non_freight_rates flatExamplePages) 120 1 = some ⟨12000, 2⟩ ∧
    dget? (parse_non_freight_rates flatExamplePages) 99 = none := by
  refine ⟨by decide, ?_, ?_⟩
  · have h := (overage_synthesis_band flatExamplePages 120 1 (by decide) (by decide)
      (by decide) (by decide)).1 ⟨100, 2⟩ (by decide)
    rw [h]
    decide
  · have h := (overage_synthesis_band flatExamplePages 100 1 (by decide) (by decide)
      (by decide) (by decide)).2.2 99 (by decide)
    rw [h]
    decide

/-- C10: the flat builder's result holds an entry for every weight 100
through 150, and when no per-pound overage rate was captured at all
that entry is the empty zone map rather than being absent. -/
theorem flat_table_weight_keys (pages : List PdfPage) (w : Int)
    (hw1 : 100 ≤ w) (hw2 : w ≤ 150) :
    (dget? (parse_non_freight_rates pages) w).isSome ∧
    ((scanNF pages).per_pound = [] →
        dget? (parse_non_freight_rates pages) w = some []) := by
  have hmem : w ∈ nfWeights := (mem_nfWeights w).mpr ⟨hw1, hw2⟩
  have hkey := dget?_parse_nf_mem pages w hmem
  constructor
  · rw [hkey]; rfl
  · intro hpp
    rw [hkey, hpp, synthInner_nil]

/-- C10 witness: on an empty page list nothing is captured, yet weight
100 and weight 150 are present and map to the empty zone map. -/
theorem flat_table_weight_keys_witness :
    (scanNF []).per_pound = [] ∧
    dget? (parse_non_freight_rates []) 100 = some [] ∧
    dget? (parse_non_freight_rates []) 150 = some [] := by
  refine ⟨rfl, ?_, ?_⟩
  · exact (flat_table_weight_keys [] 100 (by decide) (by decide)).2 rfl
  · exact (flat_table_weight_keys [] 150 (by decide) (by decide)).2 rfl

/-- C3 counterexample: on a freight page whose bracket phrase 500 to
999 occurs twice, with rate 0.30 in the first row and 0.40 in the
second, the recorded per-pound rate for zone 1 is the second row's
0.40: the last identical-bracket row wins, not the first. -/
theorem bracket_last_wins_counterexample :
    dget2 (scanFreight freightDupPages).per_pound (500, 999) 1 = some ⟨40, 2⟩ ∧
    (⟨40, 2⟩ : Dec) ≠ (⟨30, 2⟩ : Dec) := by
  constructor
  · decide
  · decide

/-- C3 as amended: a later row matching an already-recorded bracket
phrase is not ignored; whenever a row matches a bracket phrase, is not
a minimum row, and its rate count equals the zone count, its rates
overwrite the recorded per-zone rates of that bracket regardless of
the prior state, so the last matching row wins. -/
theorem bracket_row_overwrites (st : FRState) (zones : List Int) (row : Row)
    (bk : Int × Int) (rv : List Dec) (k : Int) (r : Dec)
    (hz : zones ≠ [])
    (hlen2 : ¬(row.length < 2))
    (hmin : containsLow (cellStr (cget row 0)) "minimum" = false)
    (hbk : (bracketTable.find? (fun b => containsLowNS (cellStr (cget row 0)) b.1)).map
        Prod.snd = some bk)
    (hrv : parse_rates_line (cellStr (cget row 1)) = rv)
    (hlen : rv.length = zones.length)
    (hnd : zones.Nodup)
    (hkr : (k, r) ∈ zones.zip rv) :
    dget2 (processFRRow (zones, st) row).2.per_pound bk k = some r := by
  rcases Option.map_eq_some'.mp hbk with ⟨b, hfind, hb2⟩
  have hzE : zones.isEmpty = false := by
    cases zones with
    | nil => cases hz rfl
    | cons z0 ztl => rfl
  simp only [processFRRow, if_neg hlen2, hzE, Bool.false_eq_true, if_false, hmin, hfind,
    hrv, hlen, if_true]
  rw [hb2]
  rw [dget2_of_some _ _ _ _ (dget?_dinsert_self st.per_pound bk _)]
  unfold znInsert
  apply dget?_foldl_pairs_mem
  · rw [List.map_fst_zip zones rv (le_of_eq hlen.symm)]
    exact hnd
  · exact hkr

/-- C3 witness: starting from a state already holding 0.30 for zone 1
of bracket 500 to 999, processing the later 0.40 row replaces the
recorded rate by 0.40. -/
theorem bracket_row_overwrites_witness :
    dget2 preBracketState.per_pound (500, 999) 1 = some ⟨30, 2⟩ ∧
    dget2 (processFRRow ([1, 2, 3, 4, 5, 6, 7], preBracketState) dupBracketRow).2.per_pound
        (500, 999) 1 = some ⟨40, 2⟩ := by
  refine ⟨by decide, ?_⟩
  exact bracket_row_overwrites preBracketState [1, 2, 3, 4, 5, 6, 7] dupBracketRow
    (500, 999) [⟨40, 2⟩, ⟨40, 2⟩, ⟨40, 2⟩, ⟨40, 2⟩, ⟨40, 2⟩, ⟨40, 2⟩, ⟨40, 2⟩] 1 ⟨40, 2⟩
    (by decide) (by decide) (by decide) (by decide) (by decide) (by decide) (by decide)
    (by decide)

/-- C4 counterexample: an input table of one empty row produces no
output rows, while the per-row count the claim demands (maximum
embedded-line count, minimum 1) is 1. -/
theorem normalize_empty_row_counterexample :
    (normalizeTable [([] : Row)]).length = 0 ∧ specNormalizedRowCount [([] : Row)] = 1 := by
  constructor
  · rfl
  · rfl

/-- C4 as amended: empty input rows are dropped; every nonempty input
row yields exactly L output rows where L is its maximum embedded-line
count (minimum 1), in original order; a single-line row is emitted
verbatim (absent cells kept, no stripping), while for L at least 2
output row i holds, per column, the stripped i-th embedded line of
that cell, or the empty string when the cell has fewer lines; every
output row keeps its input row's column count. -/
theorem normalize_row_shape (t : RawTable) (row : Row) (hmem : row ∈ t) (hne : row ≠ []) :
    normalizeTable t = t.flatMap normRow ∧
    (normRow row).length = rowMaxLines row ∧
    (rowMaxLines row = 1 → normRow row = [row]) ∧
    (2 ≤ rowMaxLines row → ∀ i, i < rowMaxLines row →
        (normRow row)[i]? =
          some (row.map (fun c => some (pyStrip (((splitCellLines c)[i]?).getD ""))))) ∧
    (∀ out ∈ normRow row, out.length = row.length) := by
  have hzE : row.isEmpty = false := by
    cases row with
    | nil => cases hne rfl
    | cons c cs => rfl
  refine ⟨?_, ?_, ?_, ?_, ?_⟩
  · unfold normalizeTable
    rw [foldl_append_blocks normRow t []]
    rfl
  · by_cases h1 : rowMaxLines row = 1
    · simp [normRow, hzE, h1]
    · simp [normRow, hzE, h1]
  · intro h1
    simp [normRow, hzE, h1]
  · intro h2 i hi
    have h1 : rowMaxLines row ≠ 1 := by omega
    simp only [normRow, hzE, Bool.false_eq_true, if_false, h1]
    rw [List.getElem?_map, List.getElem?_range hi]
    rfl
  · intro out hout
    by_cases h1 : rowMaxLines row = 1
    · simp only [normRow, hzE, Bool.false_eq_true, if_false, h1, if_true] at hout
      rcases List.mem_singleton.mp hout with rfl
      rfl
    · simp only [normRow, hzE, Bool.false_eq_true, if_false, h1, List.mem_map] at hout
      rcases hout with ⟨i, _, rfl⟩
      exact List.length_map row _

/-! Order theory for the sorted iteration of the zone resolver. -/

theorem charEqOfToNat (a b : Char) (h : a.toNat = b.toNat) : a = b := by
  unfold Char.toNat at h
  exact Char.eq_of_val_eq (UInt32.toNat.inj h)

theorem lexLtB_asymm : ∀ x y : List Char, lexLtB x y = true → lexLtB y x = false
  | [], [], h => by simp [lexLtB] at h
  | [], _ :: _, _ => by simp [lexLtB]
  | _ :: _, [], h => by simp [lexLtB] at h
  | a :: as, b :: bs, h => by
    simp only [lexLtB] at h ⊢
    by_cases h1 : a.toNat < b.toNat
    · have h2 : ¬b.toNat < a.toNat := by omega
      simp [h1, h2]
    · by_cases h2 : b.toNat < a.toNat
      · simp [h1, h2] at h
      · simp only [h1, h2, if_false] at h ⊢
        exact lexLtB_asymm as bs h

theorem lexLtB_trans : ∀ x y z : List Char,
    lexLtB x y = true → lexLtB y z = true → lexLtB x z = true
  | [], [], _, h1, _ => by simp [lexLtB] at h1
  | [], _ :: _, [], _, h2 => by simp [lexLtB] at h2
  | [], _ :: _, _ :: _, _, _ => by simp [lexLtB]
  | _ :: _, [], _, h1, _ => by simp [lexLtB] at h1
  | _ :: _, _ :: _, [], _, h2 => by simp [lexLtB] at h2
  | a :: as, b :: bs, c :: cs, h1, h2 => by
    simp only [lexLtB] at h1 h2 ⊢
    by_cases hab : a.toNat < b.toNat
    · by_cases hbc : b.toNat < c.toNat
      · simp [show a.toNat < c.toNat by omega]
      · by_cases hcb : c.toNat < b.toNat
        · simp [hbc, hcb] at h2
        · simp [show a.toNat < c.toNat by omega]
    · by_cases hba : b.toNat < a.toNat
      · simp [hab, hba] at h1
      · simp only [hab, hba, if_false] at h1
        by_cases hbc : b.toNat < c.toNat
        · simp [show a.toNat < c.toNat by omega]
        · by_cases hcb : c.toNat < b.toNat
          · simp [hbc, hcb] at h2
          · simp only [hbc, hcb, if_false] at h2
            have hac : ¬a.toNat < c.toNat := by omega
            have hca : ¬c.toNat < a.toNat := by omega
            simp only [hac, hca, if_false]
            exact lexLtB_trans as bs cs h1 h2

theorem lexLtB_eq_of_false : ∀ x y : List Char,
    lexLtB x y = false → lexLtB y x = false → x = y
  | [], [], _, _ => rfl
  | [], _ :: _, h1, _ => by simp [lexLtB] at h1
  | _ :: _, [], _, h2 => by simp [lexLtB] at h2
  | a :: as, b :: bs, h1, h2 => by
    simp only [lexLtB] at h1 h2
    by_cases hab : a.toNat < b.toNat
    · simp [hab] at h1
    · by_cases hba : b.toNat < a.toNat
      · simp [hab, hba] at h2
      · simp only [hab, hba, if_false] at h1 h2
        have := charEqOfToNat a b (by omega)
        subst this
        rw [lexLtB_eq_of_false as bs h1 h2]

theorem listLexLt_asymm : ∀ x y : List (List Char), listLexLt x y = true → listLexLt y x = false
  | [], [], h => by simp [listLexLt] at h
  | [], _ :: _, _ => by simp [listLexLt]
  | _ :: _, [], h => by simp [listLexLt] at h
  | a :: as, b :: bs, h => by
    simp only [listLexLt] at h ⊢
    by_cases h1 : lexLtB a b
    · simp [h1, lexLtB_asymm a b h1]
    · by_cases h2 : lexLtB b a
      · simp [h1, h2] at h
      · simp only [h1, h2, if_false] at h ⊢
        exact listLexLt_asymm as bs h

theorem listLexLt_eq_of_false : ∀ x y : List (List Char),
    listLexLt x y = false → listLexLt y x = false → x = y
  | [], [], _, _ => rfl
  | [], _ :: _, h1, _ => by simp [listLexLt] at h1
  | _ :: _, [], _, h2 => by simp [listLexLt] at h2
  | a :: as, b :: bs, h1, h2 => by
    simp only [listLexLt] at h1 h2
    by_cases hab : lexLtB a b
    · simp [hab] at h1
    · by_cases hba : lexLtB b a
      · simp [hab, hba] at h2
      · simp only [hab, hba, if_false] at h1 h2
        rw [lexLtB_eq_of_false a b (by simpa using hab) (by simpa using hba),
          listLexLt_eq_of_false as bs h1 h2]

theorem listLexLt_trans : ∀ x y z : List (List Char),
    listLexLt x y = true → listLexLt y z = true → listLexLt x z = true
  | [], [], _, h1, _ => by simp [listLexLt] at h1
  | [], _ :: _, [], _, h2 => by simp [listLexLt] at h2
  | [], _ :: _, _ :: _, _, _ => by simp [listLexLt]
  | _ :: _, [], _, h1, _ => by simp [listLexLt] at h1
  | _ :: _, _ :: _, [], _, h2 => by simp [listLexLt] at h2
  | a :: as, b :: bs, c :: cs, h1, h2 => by
    simp only [listLexLt] at h1 h2 ⊢
    by_cases hab : lexLtB a b
    · by_cases hbc : lexLtB b c
      · simp [lexLtB_trans a b c hab hbc]
      · by_cases hcb : lexLtB c b
        · simp [hbc, hcb] at h2
        · have := lexLtB_eq_of_false b c (by simpa using hbc) (by simpa using hcb)
          subst this
          simp [hab]
    · by_cases hba : lexLtB b a
      · simp [hab, hba] at h1
      · have := lexLtB_eq_of_false a b (by simpa using hab) (by simpa using hba)
        subst this
        simp only [hab, hba, if_false] at h1
        by_cases hbc : lexLtB a c
        · simp [hbc]
        · by_cases hcb : lexLtB c a
          · simp [hbc, hcb] at h2
          · simp only [hbc, hcb, if_false] at h2 ⊢
            exact listLexLt_trans as bs cs h1 h2

theorem entryLe_total (a b : (String × String) × String) : entryLe a b ∨ entryLe b a := by
  unfold entryLe entryLtB
  by_cases h : listLexLt (entryKey b) (entryKey a) = true
  · exact Or.inr (by simpa using listLexLt_asymm _ _ h)
  · exact Or.inl (by simpa using h)

theorem entryLe_trans (a b c : (String × String) × String)
    (h1 : entryLe a b) (h2 : entryLe b c) : entryLe a c := by
  unfold entryLe entryLtB at h1 h2 ⊢
  by_cases hbc : listLexLt (entryKey b) (entryKey c) = true
  · by_cases hca : listLexLt (entryKey c) (entryKey a) = true
    · have ht := listLexLt_trans _ _ _ hbc hca
      rw [ht] at h1
      cases h1
    · simpa using hca
  · have heq := listLexLt_eq_of_false (entryKey b) (entryKey c) (by simpa using hbc) h2
    rw [← heq]
    exact h1

theorem listLexLt_two_of_three (x1 x2 x3 y1 y2 y3 : List Char)
    (h : listLexLt [x1, x2, x3] [y1, y2, y3] = false) :
    listLexLt [x1, x2] [y1, y2] = false := by
  simp only [listLexLt] at h ⊢
  by_cases h1 : lexLtB x1 y1
  · simp [h1] at h
  · by_cases h2 : lexLtB y1 x1
    · simp [h1, h2]
    · simp only [h1, h2, if_false] at h ⊢
      by_cases h3 : lexLtB x2 y2
      · simp [h3] at h
      · by_cases h4 : lexLtB y2 x2 <;> simp [h3, h4]

theorem entryLe_rangeLe (matrix : List ((String × String) × Int)) (oz : String)
    (a b : (String × String) × String) (h : entryLe a b) :
    rangeLeB (zoneRowOf matrix oz a) (zoneRowOf matrix oz b) = true := by
  unfold entryLe entryLtB entryKey at h
  unfold rangeLeB zoneRowOf
  simp only [Bool.not_eq_true']
  exact listLexLt_two_of_three _ _ _ _ _ _ h

/-- C5: with the origin resolved, the zone resolver emits exactly one
ZoneRow per destination range of the postal map, whose numeric zone is
the matrix entry for the origin and destination zone codes or the
sentinel 16 when the matrix holds no such entry, and the emitted rows
are in ascending range order. -/
theorem zones_dataset_rows (origin : String) (pmap : List ((String × String) × String))
    (matrix : List ((String × String) × Int)) (oz : String)
    (h : get_zone_code_for_postal origin pmap = some oz) :
    (generate_zones_data origin pmap matrix).Perm (pmap.map (zoneRowOf matrix oz)) ∧
    List.Pairwise (fun r1 r2 => rangeLeB r1 r2 = true)
      (generate_zones_data origin pmap matrix) := by
  have hgen : generate_zones_data origin pmap matrix =
      (sortEntries pmap).map (zoneRowOf matrix oz) := by
    unfold generate_zones_data
    rw [h]
  constructor
  · rw [hgen]
    exact List.Perm.map (zoneRowOf matrix oz) (List.perm_insertionSort entryLe pmap)
  · rw [hgen]
    have hs : List.Sorted entryLe (sortEntries pmap) :=
      @List.sorted_insertionSort _ entryLe _ ⟨entryLe_total⟩
        ⟨fun a b c => entryLe_trans a b c⟩ pmap
    rw [List.pairwise_map]
    exact hs.imp (fun hab => entryLe_rangeLe matrix oz _ _ hab)

/-- C5 witness: the origin M5V1A1 resolves to zone DA on the concrete
two-range map recorded out of order; the generated dataset is a
permutation of one row per range and is sorted ascending, the row for
the unmatched matrix pair carrying exactly 16. -/
theorem zones_dataset_rows_witness :
    get_zone_code_for_postal "M5V1A1" examplePostalMap = some "DA" ∧
    ((generate_zones_data "M5V1A1" examplePostalMap exampleMatrix).Perm
        (examplePostalMap.map (zoneRowOf exampleMatrix "DA")) ∧
      List.Pairwise (fun r1 r2 => rangeLeB r1 r2 = true)
        (generate_zones_data "M5V1A1" examplePostalMap exampleMatrix)) := by
  exact ⟨by decide, zones_dataset_rows "M5V1A1" examplePostalMap exampleMatrix "DA" (by decide)⟩

/-- C4 witness: on the concrete two-cell row with a two-line first
cell and an absent second cell, the normalizer emits exactly 2 rows of
2 columns each, and the whole table is the concatenation of the
per-row fan-outs. -/
theorem normalize_row_shape_witness :
    ([some "a\nb", none] ∈ normExampleTable) ∧
    (normRow [some "a\nb", none]).length = rowMaxLines [some "a\nb", none] ∧
    normalizeTable normExampleTable = normExampleTable.flatMap normRow := by
  have h := normalize_row_shape normExampleTable [some "a\nb", none] (by decide) (by decide)
  exact ⟨by decide, h.2.1, h.1⟩

/-! The parse-ca-rates pipeline on a document without a matrix page. -/

theorem parse_zone_matrix_none (pages : List PdfPage) :
    parse_zone_matrix pages none = [] := rfl

theorem generate_zone_16 (o : String) (pmap : List ((String × String) × String))
    (r : ZoneRow) (hr : r ∈ generate_zones_data o pmap []) : r.zone = 16 := by
  unfold generate_zones_data at hr
  cases hres : get_zone_code_for_postal o pmap with
  | none => rw [hres] at hr; cases hr
  | some oz =>
    rw [hres] at hr
    rcases List.mem_map.mp hr with ⟨e, _, rfl⟩
    rfl

theorem buildServicesData_none (pages : List PdfPage) :
    ∀ svcs, buildServicesData pages svcs = none →
      ∃ s ∈ svcs, pageSpan? pages s.startPage s.endPage = none
  | [], h => by cases h
  | s :: rest, h => by
    unfold buildServicesData at h
    cases hps : pageSpan? pages s.startPage s.endPage with
    | none => exact ⟨s, List.mem_cons_self _ _, hps⟩
    | some span =>
      simp only [hps] at h
      cases hbs : buildServicesData pages rest with
      | none =>
        rcases buildServicesData_none pages rest hbs with ⟨s2, hmem, hps2⟩
        exact ⟨s2, List.mem_cons_of_mem _ hmem, hps2⟩
      | some tl =>
        rw [hbs] at h
        exact Option.noConfusion h

/-- C6 counterexample: a document with a postal-index page but no
matrix page parses to an empty matrix, yet the command terminates
normally with exit code 0 and a generated zone dataset (using the
sentinel 16) instead of any hard failure. -/
theorem missing_matrix_continues_counterexample :
    (find_zone_index_pages noMatrixPages).2 = none ∧
    parse_zone_matrix noMatrixPages (find_zone_index_pages noMatrixPages).2 = [] ∧
    cmd_parse_ca_rates noMatrixPages (some "M5V") =
      some ⟨some [⟨"Canada", "CA", 16, "", "M5V", "M5Z"⟩], [], 0⟩ := by
  refine ⟨by decide, by decide, by decide⟩

/-- C6 as amended: the wholly absent zone-matrix page is never
surfaced as a hard failure; whenever the command terminates normally
it finishes with exit code 0 and every generated zone dataset row
falls back to the sentinel distance 16, and the only abnormal
termination the command has at all is the IndexError crash of a
detected service span overrunning the page list, a condition
independent of the missing matrix. -/
theorem missing_matrix_continues (pages : List PdfPage) (origin : Option String)
    (h : (find_zone_index_pages pages).2 = none) :
    (∀ out, cmd_parse_ca_rates pages origin = some out →
        out.exitCode = 0 ∧ ∀ zd, out.zones_data = some zd → ∀ r ∈ zd, r.zone = 16) ∧
    (cmd_parse_ca_rates pages origin = none →
        ∃ s ∈ detect_service_pages (pages.map PdfPage.text) SERVICE_DEFINITIONS,
          pageSpan? pages s.startPage s.endPage = none) := by
  constructor
  · intro out hout
    simp only [cmd_parse_ca_rates] at hout
    cases hbs : buildServicesData pages
        (detect_service_pages (pages.map PdfPage.text) SERVICE_DEFINITIONS) with
    | none =>
      simp only [hbs] at hout
      exact Option.noConfusion hout
    | some sd =>
      simp only [hbs] at hout
      injection hout with hout2
      subst hout2
      constructor
      · rfl
      · intro zd hzd r hr
        cases origin with
        | none =>
          simp only [Option.map_none'] at hzd
          cases hzd
        | some o =>
          simp only [Option.map_some'] at hzd
          rw [h, parse_zone_matrix_none] at hzd
          injection hzd with hzd2
          subst hzd2
          exact generate_zone_16 o _ r hr
  · intro hnone
    simp only [cmd_parse_ca_rates] at hnone
    cases hbs : buildServicesData pages
        (detect_service_pages (pages.map PdfPage.text) SERVICE_DEFINITIONS) with
    | none => exact buildServicesData_none pages _ hbs
    | some sd =>
      simp only [hbs] at hnone
      exact Option.noConfusion hnone

/-- C6 witness: on the concrete matrix-less document the command
terminates normally; its output has exit code 0 and its only zone row
carries the sentinel 16. -/
theorem missing_matrix_continues_witness :
    (find_zone_index_pages noMatrixPages).2 = none ∧
    cmd_parse_ca_rates noMatrixPages (some "M5V") =
      some ⟨some [⟨"Canada", "CA", 16, "", "M5V", "M5Z"⟩], [], 0⟩ ∧
    (CAOutput.mk (some [⟨"Canada", "CA", 16, "", "M5V", "M5Z"⟩]) [] 0).exitCode = 0 := by
  refine ⟨by decide, by decide, ?_⟩
  exact ((missing_matrix_continues noMatrixPages (some "M5V") (by decide)).1
    ⟨some [⟨"Canada", "CA", 16, "", "M5V", "M5Z"⟩], [], 0⟩ (by decide)).1

/-! The service locator follows the catalog-order specification. -/

theorem findIdxBelow_none (p : Nat → Bool) :
    ∀ n : Nat, findIdxBelow p n = none → ∀ m, m < n → p m = false
  | 0, _, m, hm => by omega
  | n + 1, h, m, hm => by
    unfold findIdxBelow at h
    cases hf : findIdxBelow p n with
    | some s2 => rw [hf] at h; cases h
    | none =>
      rw [hf] at h
      by_cases hp : p n = true
      · rw [if_pos hp] at h; cases h
      · by_cases hmn : m = n
        · subst hmn; simpa using hp
        · exact findIdxBelow_none p n hf m (by omega)

theorem findIdxBelow_some (p : Nat → Bool) :
    ∀ n s : Nat, findIdxBelow p n = some s →
      s < n ∧ p s = true ∧ ∀ m, m < s → p m = false
  | 0, s, h => by cases h
  | n + 1, s, h => by
    unfold findIdxBelow at h
    cases hf : findIdxBelow p n with
    | some s2 =>
      rw [hf] at h
      have heq : s2 = s := Option.some_inj.mp h
      rcases findIdxBelow_some p n s2 hf with ⟨h1, h2, h3⟩
      rw [← heq]
      exact ⟨by omega, h2, h3⟩
    | none =>
      rw [hf] at h
      by_cases hp : p n = true
      · rw [if_pos hp] at h
        injection h with heq
        subst heq
        exact ⟨by omega, hp, fun m hm => findIdxBelow_none p n hf m hm⟩
      · rw [if_neg hp] at h
        cases h

theorem detectAux_spec (texts : List String) :
    ∀ (defs : List ServiceDef) (acc : List ServiceSpan),
      DetectSpec texts defs acc (defs.foldl (detectStep texts) acc)
  | [], acc => DetectSpec.nil acc
  | d :: ds, acc => by
    rw [List.foldl_cons]
    cases hf : findIdxBelow
        (fun i => pageQualifiesB texts d.search i && !(claimedB acc i)) texts.length with
    | some s =>
      have hstep : detectStep texts acc d =
          acc ++ [⟨d.name, s, s + d.page_count - 1, d.is_freight⟩] := by
        unfold detectStep
        rw [hf]
      rw [hstep]
      rcases findIdxBelow_some _ _ _ hf with ⟨h1, h2, h3⟩
      have h2b : pageQualifiesB texts d.search s = true ∧ claimedB acc s = false := by
        simpa using h2
      refine DetectSpec.found d ds acc _ s h1 h2b.1 h2b.2 ?_ ?_
      · intro m hm
        rcases Bool.and_eq_false_iff.mp (h3 m hm) with hql | hcl2
        · exact Or.inl hql
        · exact Or.inr (by simpa using hcl2)
      · exact detectAux_spec texts ds _
    | none =>
      have hstep : detectStep texts acc d = acc := by
        unfold detectStep
        rw [hf]
      rw [hstep]
      refine DetectSpec.notFound d ds acc _ ?_ (detectAux_spec texts ds acc)
      intro m hm
      rcases Bool.and_eq_false_iff.mp (findIdxBelow_none _ _ hf m hm) with hql | hcl2
      · exact Or.inl hql
      · exact Or.inr (by simpa using hcl2)

/-- C7: service detection proceeds strictly in catalog order; each
processed descriptor either binds, as its start page, the first page
that qualifies (detection phrase together with the word Rates within
the first 5 lines) and lies outside every span already claimed by the
earlier-assigned services, claiming its own inclusive span of
page-count pages, or is silently omitted when no page qualifies
outside the claimed spans. -/
theorem service_detection_catalog_order (texts : List String) (defs : List ServiceDef) :
    DetectSpec texts defs [] (detect_service_pages texts defs) :=
  detectAux_spec texts defs []

/-! The token-scan fallback of the postal-index parser. -/

theorem acov_of_present (m : List ((String × String) × String)) (s e : String)
    (hne : e ≠ s) (hmem : (dget? m (s, e)).isSome) : alreadyCoveredB m s = true := by
  unfold dget? at hmem
  cases hf : m.find? (fun p => decide (p.1 = (s, e))) with
  | none => rw [hf] at hmem; cases hmem
  | some pr =>
    have hmem2 := List.mem_of_find?_eq_some hf
    have hp := List.find?_some hf
    have hp2 : pr.1 = (s, e) := of_decide_eq_true hp
    unfold alreadyCoveredB
    apply List.any_eq_true.mpr
    refine ⟨pr, hmem2, ?_⟩
    rw [hp2]
    simp [hne]

theorem tokParts_inv (s e : String) (hne : e ≠ s) :
    ∀ (prev : Option String) (l : List String) (m : List ((String × String) × String)),
      (dget? m (s, e)).isSome →
      (dget? (tokParts prev l m) (s, e)).isSome ∧
      dget? (tokParts prev l m) (s, s) = dget? m (s, s)
  | _, [], m, hm => ⟨hm, rfl⟩
  | prev, p :: rest, m, hm => by
    cases rest with
    | nil =>
      rw [tokParts, if_neg (by simp [nextIsZone])]
      exact tokParts_inv s e hne (some p) [] m hm
    | cons nx rest2 =>
      rw [tokParts]
      by_cases hc : (isCode3B p && nextIsZone (nx :: rest2)) = true
      · rw [if_pos hc]
        by_cases hd : prevIsDash prev = true
        · rw [if_pos hd]
          exact tokParts_inv s e hne (some nx) rest2 m hm
        · rw [if_neg hd]
          by_cases hpz : p = s
          · have hcov : alreadyCoveredB m p = true := by
              rw [hpz]
              exact acov_of_present m s e hne hm
            rw [if_pos hcov]
            exact tokParts_inv s e hne (some p) (nx :: rest2) m hm
          · have hkeyE : ((s, e) : String × String) ≠ (p, p) := fun hq =>
              hpz ((congrArg Prod.fst hq).symm)
            have hkeyS : ((s, s) : String × String) ≠ (p, p) := fun hq =>
              hpz ((congrArg Prod.fst hq).symm)
            by_cases hcov : alreadyCoveredB m p = true
            · rw [if_pos hcov]
              exact tokParts_inv s e hne (some p) (nx :: rest2) m hm
            · rw [if_neg hcov]
              have hm2 : (dget? (dinsert m (p, p) (((nx :: rest2).head?).getD ""))
                  (s, e)).isSome := by
                rw [dget?_dinsert_ne m (p, p) (s, e) _ hkeyE]
                exact hm
              rcases tokParts_inv s e hne (some p) (nx :: rest2) _ hm2 with ⟨ha, hb⟩
              refine ⟨ha, hb.trans ?_⟩
              exact dget?_dinsert_ne m (p, p) (s, s) _ hkeyS
      · rw [if_neg hc]
        exact tokParts_inv s e hne (some p) (nx :: rest2) m hm

theorem postal_lines_inv (s e : String) (hne : e ≠ s) (lines : List String)
    (m0 : List ((String × String) × String)) (hm : (dget? m0 (s, e)).isSome) :
    (dget? (lines.foldl tokenLine m0) (s, e)).isSome ∧
    dget? (lines.foldl tokenLine m0) (s, s) = dget? m0 (s, s) := by
  induction lines generalizing m0 with
  | nil => exact ⟨hm, rfl⟩
  | cons line rest ih =>
    rw [List.foldl_cons]
    have hstep : (dget? (tokenLine m0 line) (s, e)).isSome ∧
        dget? (tokenLine m0 line) (s, s) = dget? m0 (s, s) := by
      unfold tokenLine
      by_cases hh : (strContains line "Postal Code" && strContains line "Zone") = true
      · rw [if_pos hh]
        exact ⟨hm, rfl⟩
      · rw [if_neg hh]
        exact tokParts_inv s e hne none (pySplitWs line) m0 hm
    rcases ih (tokenLine m0 line) hstep.1 with ⟨ha, hb⟩
    exact ⟨ha, hb.trans hstep.2⟩

/-- C8: when the regex pass has recorded a multi-code range from s to
e with e different from s, the token-scan fallback neither adds nor
changes any entry at the single-code key (s, s): the final map agrees
with the regex pass there. -/
theorem fallback_never_overrides (text : String) (s e z : String) (hne : e ≠ s)
    (hreg : dget? (regexPass text) (s, e) = some z) :
    dget? (postalMapFromText text) (s, s) = dget? (regexPass text) (s, s) := by
  have hm : (dget? (regexPass text) (s, e)).isSome := by
    rw [hreg]
    rfl
  exact (postal_lines_inv s e hne (splitOnNl text) (regexPass text) hm).2

/-- C8 witness: in the concrete page text the regex pass records the
range A1A to B2B, and the later bare token A1A followed by a zone code
is not registered: the final map holds nothing at (A1A, A1A). -/
theorem fallback_never_overrides_witness :
    ("B2B" ≠ "A1A") ∧
    dget? (regexPass postalExampleText) ("A1A", "B2B") = some "DA" ∧
    dget? (postalMapFromText postalExampleText) ("A1A", "A1A") = none := by
  refine ⟨by decide, by decide, ?_⟩
  have h := fallback_never_overrides postalExampleText "A1A" "B2B" "DA" (by decide) (by decide)
  rw [h]
  decide

/-! Provenance of the zone-matrix values. -/

/-- C9 counterexample: a matrix table whose values row starts with 0
stores the integer 0, which lies outside the claimed range 1..16. -/
theorem matrix_range_counterexample :
    dget? (zoneMatrixFromTables [matrixExampleTable]) ("DA", "DA") = some 0 ∧
    ¬(1 ≤ (0 : Int)) := by
  constructor
  · decide
  · decide

theorem pzmRow_preserve (zt : RawTable) (row : Row) (hrow : row ∈ zt)
    (m : List ((String × String) × Int))
    (hP : ∀ k v, dget? m k = some v → v ∈ tableValueInts zt) :
    ∀ k v, dget? (pzmRow m row) k = some v → v ∈ tableValueInts zt := by
  intro k v hk
  by_cases hl : row.length < 2
  · unfold pzmRow at hk
    rw [if_pos hl] at hk
    exact hP k v hk
  · have hrvi : rowValueInts row =
        (splitOnNl (pyStrip (rawCellStr (cget row 1)))).flatMap
          (fun vl => (pySplitWs (pyStrip vl)).filterMap parseInt?) := by
      unfold rowValueInts
      rw [if_neg hl]
    unfold pzmRow at hk
    rw [if_neg hl] at hk
    dsimp only at hk
    split at hk
    · exact hP k v hk
    · split at hk
      · exact hP k v hk
      · split at hk
        · exact hP k v hk
        · revert hk
          refine (foldl_preserve
            (P := fun m2 => ∀ k2 v2, dget? m2 k2 = some v2 → v2 ∈ tableValueInts zt)
            _ _ m hP ?_) k v
          intro m2 q hq hP2 k2 v2 hk2
          split at hk2
          · split at hk2
            · exact hP2 k2 v2 hk2
            · rename_i vl hvl2
              split at hk2
              · rename_i hlen
                rcases dget?_foldl_insert_sub (fun q2 => (pyStrip q.2, q2.1)) Prod.snd
                    _ _ _ _ hk2 with hv | hacc
                · rw [List.map_snd_zip _ _ (le_of_eq hlen)] at hv
                  apply List.mem_flatMap.mpr
                  refine ⟨row, hrow, ?_⟩
                  rw [hrvi]
                  apply List.mem_flatMap.mpr
                  exact ⟨vl, List.getElem?_mem hvl2, hv⟩
                · exact hP2 k2 v2 hacc
              · exact hP2 k2 v2 hk2
          · exact hP2 k2 v2 hk2

/-- C9 as amended: every distance value the matrix parser stores is an
integer token parsed from a values cell of the selected matrix table;
no restriction to the range 1..16 is enforced, so out-of-range tokens
such as 0 are stored verbatim. -/
theorem matrix_values_from_table (tables : List RawTable) (o d : String) (v : Int)
    (h : dget? (zoneMatrixFromTables tables) (o, d) = some v) :
    ∃ zt, selectMatrixTable tables = some zt ∧ v ∈ tableValueInts zt := by
  cases tables with
  | nil => exact Option.noConfusion h
  | cons t0 ts =>
    have hsel : selectMatrixTable (t0 :: ts) =
        some (ts.foldl (fun best t => if best.length < t.length then t else best) t0) := rfl
    refine ⟨ts.foldl (fun best t => if best.length < t.length then t else best) t0, hsel, ?_⟩
    have hinv : ∀ k v2,
        dget? ((ts.foldl (fun best t => if best.length < t.length then t else best)
            t0).foldl pzmRow []) k = some v2 →
        v2 ∈ tableValueInts
          (ts.foldl (fun best t => if best.length < t.length then t else best) t0) := by

      refine foldl_preserve
        (P := fun m => ∀ k v2, dget? m k = some v2 → v2 ∈ tableValueInts
          (ts.foldl (fun best t => if best.length < t.length then t else best) t0))
        pzmRow _ [] ?_ ?_
      · intro k v2 hv2
        exact Option.noConfusion hv2
      · intro m row hrow hPm
        exact pzmRow_preserve _ row hrow m hPm
    exact hinv (o, d) v h

/-- C9 witness: applied to the concrete table, the stored value 0 at
the pair DA DA is indeed one of the integer tokens of the selected
table's values cell. -/
theorem matrix_values_from_table_witness :
    dget? (zoneMatrixFromTables [matrixExampleTable]) ("DA", "DA") = some 0 ∧
    (∃ zt, selectMatrixTable [matrixExampleTable] = some zt ∧ 0 ∈ tableValueInts zt) := by
  exact ⟨by decide, matrix_values_from_table [matrixExampleTable] "DA" "DA" 0 (by decide)⟩

end FRT
